import Mathlib

/-!
Verification of the token-swap orchestration script (src/index.js).

The script runs a fixed pipeline: approve the input token for the swap
router, resolve the USDC/LINK pool from the factory, build swap
parameters, submit the swap, then approve and deposit into the Aave
lending pool.  Amount conversion is ethers v6 `parseUnits` /
`formatUnits` (exact big-integer decimal arithmetic), which we embed
over decimal digit strings.  External contract and network behaviour
is modelled by an `Env` oracle; each run of `main` produces a trace of
submission / confirmation-wait events together with the promise
outcome and the console-logged error message.
-/

/-- Character for a single decimal digit (values above 9 map to '9';
they never arise). Mirrors one character of JavaScript
`BigInt.prototype.toString`. -/
def digitChar : Nat → Char
  | 0 => '0'
  | 1 => '1'
  | 2 => '2'
  | 3 => '3'
  | 4 => '4'
  | 5 => '5'
  | 6 => '6'
  | 7 => '7'
  | 8 => '8'
  | _ => '9'

/-- Numeric value of a digit character. -/
def charVal (c : Char) : Nat := c.toNat - 48

/-- The character class `[0-9]` of the FixedNumber regular expression. -/
def isDigitChar (c : Char) : Bool :=
  c == '0' || c == '1' || c == '2' || c == '3' || c == '4' ||
  c == '5' || c == '6' || c == '7' || c == '8' || c == '9'

theorem isDigitChar_elim {c : Char} (h : isDigitChar c = true) :
    digitChar (charVal c) = c ∧ charVal c < 10 := by
  simp only [isDigitChar, Bool.or_eq_true, beq_iff_eq] at h
  rcases h with (((((((((h|h)|h)|h)|h)|h)|h)|h)|h)|h) <;> subst h <;>
    exact ⟨rfl, by decide⟩

theorem isDigitChar_digitChar {d : Nat} (h : d < 10) :
    isDigitChar (digitChar d) = true := by
  interval_cases d <;> decide

theorem charVal_digitChar {d : Nat} (h : d < 10) : charVal (digitChar d) = d := by
  interval_cases d <;> decide

theorem dot_not_digit {c : Char} (h : isDigitChar c = true) : c ≠ '.' := by
  simp only [isDigitChar, Bool.or_eq_true, beq_iff_eq] at h
  rcases h with (((((((((h|h)|h)|h)|h)|h)|h)|h)|h)|h) <;> subst h <;> decide

theorem dash_not_digit {c : Char} (h : isDigitChar c = true) : c ≠ '-' := by
  simp only [isDigitChar, Bool.or_eq_true, beq_iff_eq] at h
  rcases h with (((((((((h|h)|h)|h)|h)|h)|h)|h)|h)|h) <;> subst h <;> decide

/-- Numeric value of a decimal digit string, as computed by
JavaScript `BigInt(string)` on the digit part. -/
def digitsToNat (l : List Char) : Nat :=
  l.foldl (fun acc c => 10 * acc + charVal c) 0

theorem digitsToNat_acc (l : List Char) : ∀ acc : Nat,
    l.foldl (fun acc c => 10 * acc + charVal c) acc
      = acc * 10 ^ l.length + digitsToNat l := by
  induction l with
  | nil => intro acc; simp [digitsToNat]
  | cons c t ih =>
    intro acc
    simp only [List.foldl_cons, List.length_cons, digitsToNat]
    rw [ih (10 * acc + charVal c), ih (10 * 0 + charVal c)]
    ring

theorem digitsToNat_append (a b : List Char) :
    digitsToNat (a ++ b) = digitsToNat a * 10 ^ b.length + digitsToNat b := by
  simp only [digitsToNat, List.foldl_append]
  rw [digitsToNat_acc b (List.foldl (fun acc c => 10 * acc + charVal c) 0 a)]
  rfl

theorem digitsToNat_cons (c : Char) (t : List Char) :
    digitsToNat (c :: t) = charVal c * 10 ^ t.length + digitsToNat t := by
  have := digitsToNat_append [c] t
  simpa [digitsToNat] using this

theorem digitsToNat_lt (l : List Char) (h : l.all isDigitChar = true) :
    digitsToNat l < 10 ^ l.length := by
  induction l with
  | nil => simp [digitsToNat]
  | cons c t ih =>
    simp only [List.all_cons, Bool.and_eq_true] at h
    have hc : charVal c < 10 := (isDigitChar_elim h.1).2
    have ht := ih h.2
    rw [digitsToNat_cons]
    simp only [List.length_cons, pow_succ]
    calc charVal c * 10 ^ t.length + digitsToNat t
        < charVal c * 10 ^ t.length + 10 ^ t.length := by omega
      _ = (charVal c + 1) * 10 ^ t.length := by ring
      _ ≤ 10 * 10 ^ t.length := by
          have : charVal c + 1 ≤ 10 := hc
          exact Nat.mul_le_mul_right _ this
      _ = 10 ^ t.length * 10 := by ring

theorem digitsToNat_snoc (l : List Char) (c : Char) :
    digitsToNat (l ++ [c]) = 10 * digitsToNat l + charVal c := by
  rw [digitsToNat_append]
  simp [digitsToNat]
  ring

theorem digitsToNat_replicate_zero (k : Nat) :
    digitsToNat (List.replicate k '0') = 0 := by
  induction k with
  | zero => simp [digitsToNat]
  | succ n ih =>
    have : List.replicate (n + 1) '0' = List.replicate n '0' ++ ['0'] := by
      rw [List.replicate_succ' ]
    rw [this, digitsToNat_snoc, ih]
    decide

theorem digitsToNat_append_zeros (l : List Char) (k : Nat) :
    digitsToNat (l ++ List.replicate k '0') = digitsToNat l * 10 ^ k := by
  rw [digitsToNat_append, digitsToNat_replicate_zero, List.length_replicate]
  omega

theorem eq_replicate_of_digitsToNat_zero (l : List Char)
    (hd : l.all isDigitChar = true) (h : digitsToNat l = 0) :
    l = List.replicate l.length '0' := by
  induction l with
  | nil => rfl
  | cons c t ih =>
    simp only [List.all_cons, Bool.and_eq_true] at hd
    rw [digitsToNat_cons] at h
    have hc : charVal c = 0 := by
      have := Nat.pos_pow_of_pos t.length (show 0 < 10 by decide)
      nlinarith [Nat.eq_zero_of_add_eq_zero_right h]
    have ht : digitsToNat t = 0 := by omega
    have hcc : c = '0' := by
      have := (isDigitChar_elim hd.1).1
      rw [hc] at this
      exact this.symm
    rw [List.length_cons, List.replicate_succ, hcc, ih hd.2 ht]
    simp

/-- Decimal digit rendering of a natural number, fuel-based so that it
reduces by kernel computation.  `natToDigits n` is the digit list of
JavaScript `n.toString()` for a BigInt `n`. -/
def natDigitsAux : Nat → Nat → List Char → List Char
  | 0, _, acc => acc
  | fuel + 1, n, acc =>
    if n < 10 then digitChar n :: acc
    else natDigitsAux fuel (n / 10) (digitChar (n % 10) :: acc)

def natToDigits (n : Nat) : List Char := natDigitsAux (n + 1) n []

theorem natDigitsAux_acc (fuel : Nat) : ∀ n acc, n < fuel →
    natDigitsAux fuel n acc = natDigitsAux fuel n [] ++ acc := by
  induction fuel with
  | zero => intro n acc h; omega
  | succ f ih =>
    intro n acc h
    by_cases h10 : n < 10
    · simp [natDigitsAux, h10]
    · have hn : 0 < n := by omega
      have hdiv : n / 10 < n := Nat.div_lt_self hn (by decide)
      have hlt : n / 10 < f := by omega
      simp only [natDigitsAux, if_neg h10]
      rw [ih _ _ hlt, ih _ [digitChar (n % 10)] hlt]
      simp

theorem natDigitsAux_fuel : ∀ f1 f2 n, n < f1 → n < f2 →
    natDigitsAux f1 n [] = natDigitsAux f2 n [] := by
  intro f1
  induction f1 with
  | zero => intro f2 n h; omega
  | succ g ih =>
    intro f2 n h1 h2
    match f2, h2 with
    | f2' + 1, h2 =>
      by_cases h10 : n < 10
      · simp [natDigitsAux, h10]
      · have hn : 0 < n := by omega
        have hdiv : n / 10 < n := Nat.div_lt_self hn (by decide)
        simp only [natDigitsAux, if_neg h10]
        rw [natDigitsAux_acc g _ _ (by omega), natDigitsAux_acc f2' _ _ (by omega),
          ih f2' (n / 10) (by omega) (by omega)]

theorem natToDigits_eq (n : Nat) : natToDigits n =
    if n < 10 then [digitChar n]
    else natToDigits (n / 10) ++ [digitChar (n % 10)] := by
  by_cases h10 : n < 10
  · simp only [natToDigits, natDigitsAux, if_pos h10]
  · have hn : 0 < n := by omega
    have hdiv : n / 10 < n := Nat.div_lt_self hn (by decide)
    rw [if_neg h10]
    have e1 : natToDigits n = natDigitsAux n (n / 10) [digitChar (n % 10)] := by
      simp only [natToDigits, natDigitsAux, if_neg h10]
    rw [e1, natDigitsAux_acc n _ _ (by omega),
      natDigitsAux_fuel n (n / 10 + 1) (n / 10) (by omega) (by omega)]
    rfl

theorem natToDigits_lt (n : Nat) (h : n < 10) : natToDigits n = [digitChar n] := by
  rw [natToDigits_eq]; simp [h]

theorem natToDigits_ge (n : Nat) (h : ¬ n < 10) :
    natToDigits n = natToDigits (n / 10) ++ [digitChar (n % 10)] := by
  rw [natToDigits_eq]; simp [h]

theorem natToDigits_ne_nil (n : Nat) : natToDigits n ≠ [] := by
  rw [natToDigits_eq]
  by_cases h : n < 10 <;> simp [h]

theorem natToDigits_all_digits (n : Nat) : (natToDigits n).all isDigitChar = true := by
  induction n using Nat.strong_induction_on with
  | _ n ih =>
    rw [natToDigits_eq]
    by_cases h : n < 10
    · simp [h, isDigitChar_digitChar]
    · have hn : 0 < n := by omega
      have hdiv : n / 10 < n := Nat.div_lt_self hn (by decide)
      have hmod : n % 10 < 10 := Nat.mod_lt n (by decide)
      simp only [if_neg h, List.all_append, Bool.and_eq_true]
      exact ⟨ih _ hdiv, by simp [isDigitChar_digitChar hmod]⟩

theorem digitsToNat_natToDigits (n : Nat) : digitsToNat (natToDigits n) = n := by
  induction n using Nat.strong_induction_on with
  | _ n ih =>
    rw [natToDigits_eq]
    by_cases h : n < 10
    · simp [h, digitsToNat_cons, digitsToNat, charVal_digitChar h]
    · have hn : 0 < n := by omega
      have hdiv : n / 10 < n := Nat.div_lt_self hn (by decide)
      have hmod : n % 10 < 10 := Nat.mod_lt n (by decide)
      simp only [if_neg h]
      rw [digitsToNat_snoc, ih _ hdiv, charVal_digitChar hmod]
      omega

theorem natToDigits_length_le : ∀ k n, n < 10 ^ (k + 1) →
    (natToDigits n).length ≤ k + 1 := by
  intro k
  induction k with
  | zero =>
    intro n h
    have h10 : n < 10 := by simpa using h
    rw [natToDigits_lt n h10]
    simp
  | succ k ih =>
    intro n h
    by_cases h10 : n < 10
    · rw [natToDigits_lt n h10]; simp
    · rw [natToDigits_ge n h10]
      have : n / 10 < 10 ^ (k + 1) := by
        rw [Nat.div_lt_iff_lt_mul (by decide : 0 < 10)]
        calc n < 10 ^ (k + 1 + 1) := h
          _ = 10 ^ (k + 1) * 10 := by ring
      have := ih (n / 10) this
      simp only [List.length_append, List.length_cons, List.length_nil]
      omega

theorem natToDigits_mul_ten {m : Nat} (h : 0 < m) :
    natToDigits (m * 10) = natToDigits m ++ ['0'] := by
  have h10 : ¬ m * 10 < 10 := by omega
  rw [natToDigits_ge _ h10]
  have h1 : m * 10 / 10 = m := by omega
  have h2 : m * 10 % 10 = 0 := by omega
  rw [h1, h2]
  rfl

theorem natToDigits_mul_pow_ten {m : Nat} (h : 0 < m) (k : Nat) :
    natToDigits (m * 10 ^ k) = natToDigits m ++ List.replicate k '0' := by
  induction k with
  | zero => simp
  | succ j ih =>
    have hmj : 0 < m * 10 ^ j := by positivity
    calc natToDigits (m * 10 ^ (j + 1)) = natToDigits (m * 10 ^ j * 10) := by ring_nf
      _ = natToDigits (m * 10 ^ j) ++ ['0'] := natToDigits_mul_ten hmj
      _ = natToDigits m ++ List.replicate j '0' ++ ['0'] := by rw [ih]
      _ = natToDigits m ++ List.replicate (j + 1) '0' := by
          rw [List.append_assoc, ← List.replicate_succ' ]

-- The rendering of the value of a digit string, left-padded with zeros back
-- to the original length, recovers the string (leading zeros are all that
-- `digitsToNat` forgets).
theorem pad_natToDigits_digitsToNat : ∀ l : List Char,
    l.all isDigitChar = true → l ≠ [] →
    List.replicate (l.length - (natToDigits (digitsToNat l)).length) '0' ++
      natToDigits (digitsToNat l) = l := by
  intro l
  induction l using List.reverseRecOn with
  | nil => intro _ h; exact absurd rfl h
  | append_singleton l' c ih =>
    intro hall _
    simp only [List.all_append, List.all_cons, List.all_nil, Bool.and_eq_true] at hall
    obtain ⟨hall', hc, -⟩ := hall
    have hcv : charVal c < 10 := (isDigitChar_elim hc).2
    have hcc : digitChar (charVal c) = c := (isDigitChar_elim hc).1
    rw [digitsToNat_snoc]
    rcases List.eq_nil_or_concat l' with hnil | ⟨l'', c', hcons⟩
    · subst hnil
      simp only [digitsToNat, List.foldl_nil, Nat.mul_zero, Nat.zero_add]
      rw [natToDigits_lt _ hcv, hcc]
      simp
    · have hne : l' ≠ [] := by subst hcons; simp
      by_cases hv : digitsToNat l' = 0
      · have hrep : l' = List.replicate l'.length '0' :=
          eq_replicate_of_digitsToNat_zero l' hall' hv
        rw [hv]
        simp only [Nat.mul_zero, Nat.zero_add]
        rw [natToDigits_lt _ hcv, hcc]
        have hlen : (l' ++ [c]).length - [c].length = l'.length := by simp
        rw [hlen]
        conv_rhs => rw [hrep]
      · have hpos : 0 < digitsToNat l' := Nat.pos_of_ne_zero hv
        have h10 : ¬ 10 * digitsToNat l' + charVal c < 10 := by omega
        rw [natToDigits_ge _ h10]
        have hdm : (10 * digitsToNat l' + charVal c) / 10 = digitsToNat l' := by omega
        have hmm : (10 * digitsToNat l' + charVal c) % 10 = charVal c := by omega
        rw [hdm, hmm, hcc]
        have hlen0 : l'.length ≠ 0 := by simpa using hne
        obtain ⟨k, hk⟩ := Nat.exists_eq_succ_of_ne_zero hlen0
        have hlt10 : digitsToNat l' < 10 ^ (k + 1) := by
          have h2 := digitsToNat_lt l' hall'
          rwa [hk] at h2
        have hlenle : (natToDigits (digitsToNat l')).length ≤ l'.length := by
          have h3 := natToDigits_length_le k _ hlt10
          omega
        have hA : (l' ++ [c]).length - (natToDigits (digitsToNat l') ++ [c]).length
            = l'.length - (natToDigits (digitsToNat l')).length := by
          simp only [List.length_append, List.length_cons, List.length_nil]
          omega
        rw [hA, ← List.append_assoc, ih hall' hne]

-- List helpers used by the trimming and matching functions.

theorem takeWhile_all_eq {p : Char → Bool} : ∀ l : List Char,
    l.all p = true → l.takeWhile p = l := by
  intro l h
  induction l with
  | nil => rfl
  | cons c t ih =>
    simp only [List.all_cons, Bool.and_eq_true] at h
    simp [List.takeWhile_cons, h.1, ih h.2]

theorem dropWhile_all_eq {p : Char → Bool} : ∀ l : List Char,
    l.all p = true → l.dropWhile p = [] := by
  intro l h
  induction l with
  | nil => rfl
  | cons c t ih =>
    simp only [List.all_cons, Bool.and_eq_true] at h
    simp [List.dropWhile_cons, h.1, ih h.2]

theorem takeWhile_append_all {p : Char → Bool} (a b : List Char)
    (h : a.all p = true) : (a ++ b).takeWhile p = a ++ b.takeWhile p := by
  induction a with
  | nil => simp
  | cons c t ih =>
    simp only [List.all_cons, Bool.and_eq_true] at h
    simp [List.takeWhile_cons, h.1, ih h.2]

theorem dropWhile_append_all {p : Char → Bool} (a b : List Char)
    (h : a.all p = true) : (a ++ b).dropWhile p = b.dropWhile p := by
  induction a with
  | nil => simp
  | cons c t ih =>
    simp only [List.all_cons, Bool.and_eq_true] at h
    simp [List.dropWhile_cons, h.1, ih h.2]

theorem dropWhile_append_ne_nil {p : Char → Bool} (a b : List Char)
    (h : a.dropWhile p ≠ []) :
    (a ++ b).dropWhile p = a.dropWhile p ++ b := by
  induction a with
  | nil => exact absurd rfl h
  | cons c t ih =>
    by_cases hc : p c
    · simp only [List.dropWhile_cons_of_pos hc] at h
      simp only [List.cons_append, List.dropWhile_cons_of_pos hc]
      exact ih h
    · simp only [List.cons_append,
        List.dropWhile_cons_of_neg (by simpa using hc)]

theorem dropWhile_head_false {p : Char → Bool} : ∀ (l : List Char) (c : Char)
    (t : List Char), l.dropWhile p = c :: t → p c = false := by
  intro l
  induction l with
  | nil => intro c t h; simp at h
  | cons d t' ih =>
    intro c t h
    by_cases hd : p d
    · rw [List.dropWhile_cons_of_pos hd] at h
      exact ih c t h
    · rw [List.dropWhile_cons_of_neg (by simpa using hd)] at h
      cases h
      simpa using hd

theorem mem_of_mem_dropWhile {p : Char → Bool} : ∀ (l : List Char) (c : Char),
    c ∈ l.dropWhile p → c ∈ l := by
  intro l
  induction l with
  | nil => intro c h; simp at h
  | cons d t ih =>
    intro c h
    by_cases hd : p d
    · rw [List.dropWhile_cons_of_pos hd] at h
      exact List.mem_cons_of_mem d (ih c h)
    · rw [List.dropWhile_cons_of_neg (by simpa using hd)] at h
      exact h

theorem not_dot_mem_of_all_digits {l : List Char}
    (h : l.all isDigitChar = true) : '.' ∉ l := by
  intro hmem
  have := List.all_eq_true.mp h '.' hmem
  exact absurd rfl (dot_not_digit this)

/-- Drop the trailing zero characters of a digit string. -/
def dropTrailingZeros (l : List Char) : List Char :=
  (l.reverse.dropWhile (fun c => c == '0')).reverse

/-- The value-rendering trimming step of ethers v6 `FixedNumber`: trailing
zeros of the fractional part are removed, leaving at least one digit. -/
def trimFrac (l : List Char) : List Char :=
  match dropTrailingZeros l with
  | [] => ['0']
  | m => m

theorem dropTrailingZeros_append_zeros (l : List Char) (k : Nat) :
    dropTrailingZeros (l ++ List.replicate k '0') = dropTrailingZeros l := by
  unfold dropTrailingZeros
  rw [List.reverse_append, List.reverse_replicate]
  rw [dropWhile_append_all _ _ (by simp)]

theorem dropTrailingZeros_all_zero {l : List Char}
    (h : l.all (fun c => c == '0') = true) : dropTrailingZeros l = [] := by
  unfold dropTrailingZeros
  rw [dropWhile_all_eq _ (by simpa using h)]
  rfl

theorem dropTrailingZeros_ne_nil {l : List Char}
    (h : digitsToNat l ≠ 0) :
    dropTrailingZeros l ≠ [] := by
  intro hc
  apply h
  unfold dropTrailingZeros at hc
  have : l.reverse.dropWhile (fun c => c == '0') = [] := by
    have := congrArg List.reverse hc
    simpa using this
  have hall' : ∀ c ∈ l.reverse, c = '0' := by
    intro c hmem
    have := List.dropWhile_eq_nil_iff.mp this
    simpa using this c hmem
  have : l = List.replicate l.length '0' := by
    apply List.eq_replicate_of_mem
    intro c hmem
    exact hall' c (by simpa using hmem)
  rw [this, digitsToNat_replicate_zero]

-- ## The amount codec: ethers v6 parseUnits / formatUnits
--
-- src/index.js converts the caller's decimal amount with
-- `ethers.parseUnits(amount.toString(), decimals)` and renders amounts with
-- `ethers.formatUnits(amount, decimals)`.  Ethers v6 implements these on top
-- of `FixedNumber` (big-integer fixed point, width 512 bits, at most 80
-- decimals): `fromString` matches the value against the regular expression
-- `^(-?)([0-9]*)\.?([0-9]*)$`, requires at least one digit, requires the
-- fraction to have at most `decimals` digits, right-pads the fraction to
-- `decimals` digits and reads the signed big integer; rendering prints the
-- scaled integer with a decimal point inserted `decimals` places from the
-- right, keeping at least one integer digit and at least one fractional
-- digit (trailing fractional zeros are trimmed).  The spec calls these
-- `toBaseUnits` / `toDecimalString`.

/-- Optional leading sign of the FixedNumber regular expression
`^(-?)...`. -/
def splitSign (l : List Char) : Bool × List Char :=
  match l with
  | [] => (false, l)
  | c :: t => if c = '-' then (true, t) else (false, l)

/-- Match of `^(-?)([0-9]*)\.?([0-9]*)$` together with the ethers
requirement `match[2].length + match[3].length > 0`; returns the sign,
the whole-part digits and the fraction digits. -/
def matchDecimal (l : List Char) : Option (Bool × List Char × List Char) :=
  let s := splitSign l
  let neg := s.1
  let rest := s.2
  let w := rest.takeWhile isDigitChar
  match rest.dropWhile isDigitChar with
  | [] => if w.isEmpty then none else some (neg, w, [])
  | c :: f =>
    if c = '.' then
      if f.all isDigitChar && !(w.isEmpty && f.isEmpty) then some (neg, w, f)
      else none
    else none

/-- Ethers v6 `parseUnits` (the spec's `toBaseUnits`): exact conversion of
a decimal string into base units, `Except`-valued because ethers throws on
malformed input, more than 80 decimals, more fraction digits than
`decimals`, or a value outside the signed 512-bit width. -/
def parseUnits (value : String) (decimals : Nat) : Except String Int :=
  if 80 < decimals then .error "invalid decimal length"
  else
    match matchDecimal value.data with
    | none => .error "invalid FixedNumber string value"
    | some (neg, w, f) =>
      if decimals < f.length then .error "too many decimals"
      else
        let mag : Nat := digitsToNat (w ++ (f ++ List.replicate (decimals - f.length) '0'))
        let v : Int := if neg then -(mag : Int) else (mag : Int)
        if v < -(2 ^ 511 : Int) ∨ (2 ^ 511 : Int) ≤ v then .error "overflow"
        else .ok v

/-- Ethers v6 `formatUnits` (the spec's `toDecimalString`): renders base
units as a decimal string; the whole part keeps no leading zeros (but at
least one digit) and the fractional part keeps no trailing zeros (but at
least one digit). -/
def formatUnits (value : Int) (decimals : Nat) : Except String String :=
  if 80 < decimals then .error "invalid decimal length"
  else if value < -(2 ^ 511 : Int) ∨ (2 ^ 511 : Int) ≤ value then .error "overflow"
  else
    let n := value.natAbs
    let sign : List Char := if value < 0 then ['-'] else []
    if decimals = 0 then .ok (String.mk (sign ++ natToDigits n))
    else
      let fracRaw := natToDigits (n % 10 ^ decimals)
      let frac := trimFrac (List.replicate (decimals - fracRaw.length) '0' ++ fracRaw)
      .ok (String.mk (sign ++ natToDigits (n / 10 ^ decimals) ++ '.' :: frac))

/-- Trailing-zero normalization of a decimal string: if the string has a
fractional part, drop its trailing zeros, and drop the decimal point too
when the whole fraction goes away.  Strings without a decimal point are
unchanged. -/
def normalizeChars (l : List Char) : List Char :=
  if '.' ∈ l then
    let r := l.reverse.dropWhile (fun c => c == '0')
    (match r with
      | c :: t => if c = '.' then t else r
      | [] => r).reverse
  else l

def normalizeAmount (s : String) : String := String.mk (normalizeChars s.data)

/-- A canonically written decimal amount: optional sign, whole part
without leading zeros, optional fractional digits.  Every such string is
what the spec calls a valid decimal amount. -/
def mkDecimal (neg : Bool) (whole : Nat) (frac : List Char) : String :=
  String.mk ((if neg then ['-'] else []) ++ natToDigits whole ++
    (if frac.isEmpty then [] else '.' :: frac))

set_option maxRecDepth 40000

-- ## The pipeline of src/index.js

/-- Token descriptor, as configured statically in src/index.js. -/
structure Token where
  chainId : Nat
  address : String
  decimals : Nat
  symbol : String
  name : String
  isToken : Bool
  isNative : Bool
  wrapped : Bool
deriving DecidableEq

def USDC : Token :=
  { chainId := 11155111, address := "0x1c7D4B196Cb0C7B01d743Fbc6116a902379C7238",
    decimals := 6, symbol := "USDC", name := "USD//C",
    isToken := true, isNative := true, wrapped := false }

def LINK : Token :=
  { chainId := 11155111, address := "0x779877A7B0D9E8603169DdbD7836e478b4624789",
    decimals := 18, symbol := "LINK", name := "Chainlink",
    isToken := true, isNative := true, wrapped := false }

def POOL_FACTORY_CONTRACT_ADDRESS : String :=
  "0x0227628f3F023bb0B980b67D528571c95c6DaC1c"

def SWAP_ROUTER_CONTRACT_ADDRESS : String :=
  "0x3bFA4769FB09eefC5a80d6E87c3B9C650f7Ae48E"

def AAVE_LENDING_POOL_ADDRESS : String :=
  "0x7d2768dE32b0b80b7a3454c06BdAc94A69DDc7A9"

/-- The argument record of `exactInputSingle` built by
`prepareSwapParams`. -/
structure SwapParams where
  tokenIn : String
  tokenOut : String
  fee : Nat
  recipient : String
  amountIn : Int
  amountOutMinimum : Int
  sqrtPriceLimitX96 : Int
deriving DecidableEq

/-- The record returned by `getPoolInfo`. -/
structure PoolInfo where
  poolContract : String
  token0 : String
  token1 : String
  fee : Nat
deriving DecidableEq

/-- The four transaction-submitting pipeline steps. -/
inductive Step
  | approveForSwap
  | swapExec
  | approveForSupply
  | depositStep
deriving DecidableEq

/-- Payload of a transaction submission. -/
inductive TxKind
  | approval (token spender : String) (amount : Int)
  | swapCall (params : SwapParams)
  | deposit (asset : String) (amount : Int) (onBehalfOf : String) (referralCode : Nat)
deriving DecidableEq

/-- Observable external interactions of one pipeline run, in program
order: `submit` is a `sendTransaction` (or contract method call) being
issued, `txWait` is an explicit `.wait()` for on-chain confirmation,
the read events are the view calls, and `logSupplied` is the success
log line of `supplyToAave`. -/
inductive Event
  | submit (s : Step) (k : TxKind)
  | txWait (s : Step)
  | factoryGetPool (tokenA tokenB : String) (fee : Nat)
  | poolRead (field : String)
  | logSupplied (msg : String)
deriving DecidableEq

/-- Oracle for everything outside the script: whether each
`sendTransaction` promise resolves, whether each awaited `.wait()`
confirms, and the results of the view calls.  `poolAddress = none`
models a null/undefined factory result (JavaScript falsy), `some s`
an address string (falsy only when empty). -/
structure Env where
  signerAddress : String
  approve1Send : Bool
  approve1Wait : Bool
  poolAddress : Option String
  token0 : String
  token1 : String
  fee : Nat
  swapSend : Bool
  swapErrorMsg : String
  approve2Send : Bool
  approve2Wait : Bool
  depositSend : Bool
  depositWait : Bool

/-- Part A of src/index.js.  Re-parses the raw amount with the USDC
decimals, submits an `approve(SWAP_ROUTER, amount)` transaction and
awaits its confirmation; any error is caught and rethrown as
"Token approval failed". -/
def approveToken (tokenAddress : String) (amount : String) (env : Env) :
    List Event × Except String Unit :=
  match parseUnits amount USDC.decimals with
  | .error _ => ([], .error "Token approval failed")
  | .ok approveAmount =>
    let sub := Event.submit .approveForSwap
      (.approval tokenAddress SWAP_ROUTER_CONTRACT_ADDRESS approveAmount)
    if env.approve1Send then
      if env.approve1Wait then ([sub, .txWait .approveForSwap], .ok ())
      else ([sub, .txWait .approveForSwap], .error "Token approval failed")
    else ([sub], .error "Token approval failed")

/-- Part B of src/index.js.  Queries `factory.getPool(tokenIn, tokenOut,
3000)`; throws "Failed to get pool address" only when the result is
JavaScript-falsy (null/undefined/empty string — the all-zero hex address
is a non-empty string and passes the check); then reads `token0`,
`token1` and `fee` from the pool. -/
def getPoolInfo (tokenIn tokenOut : Token) (env : Env) :
    List Event × Except String PoolInfo :=
  let ev := Event.factoryGetPool tokenIn.address tokenOut.address 3000
  match env.poolAddress with
  | none => ([ev], .error "Failed to get pool address")
  | some addr =>
    if addr.isEmpty then ([ev], .error "Failed to get pool address")
    else
      ([ev, .poolRead "token0", .poolRead "token1", .poolRead "fee"],
        .ok ⟨addr, env.token0, env.token1, env.fee⟩)

/-- Part C of src/index.js.  Builds the `exactInputSingle` argument
record: `tokenIn`/`tokenOut` are the hard-coded USDC and LINK addresses
(the resolved pool's own token ordering is not consulted), the fee is
re-read from the pool contract, and both `amountOutMinimum` and
`sqrtPriceLimitX96` are zero. -/
def prepareSwapParams (_poolContract : PoolInfo) (signerAddress : String)
    (amountIn : Int) (env : Env) : List Event × SwapParams :=
  ([Event.poolRead "fee"],
    { tokenIn := USDC.address, tokenOut := LINK.address, fee := env.fee,
      recipient := signerAddress, amountIn := amountIn,
      amountOutMinimum := 0, sqrtPriceLimitX96 := 0 })

/-- Part D of src/index.js.  Submits the swap transaction.  Note: the
promise awaited is `signer.sendTransaction` only — there is no
`.wait()` call, so no confirmation of the swap is ever awaited; a
rejection propagates uncaught (the raw provider error). -/
def executeSwap (params : SwapParams) (env : Env) :
    List Event × Except String Unit :=
  let sub := Event.submit .swapExec (.swapCall params)
  if env.swapSend then ([sub], .ok ()) else ([sub], .error env.swapErrorMsg)

/-- Part E of src/index.js.  Approves the Aave lending pool, awaits that
confirmation, calls `deposit(token, amount, signer, 0)`, awaits its
confirmation, and logs the supplied amount formatted with the LINK
decimals; any error is caught and rethrown as "Aave supply failed". -/
def supplyToAave (tokenAddress : String) (amount : Int) (env : Env) :
    List Event × Except String Unit :=
  let sub1 := Event.submit .approveForSupply
    (.approval tokenAddress AAVE_LENDING_POOL_ADDRESS amount)
  if env.approve2Send then
    if env.approve2Wait then
      let sub2 := Event.submit .depositStep
        (.deposit tokenAddress amount env.signerAddress 0)
      if env.depositSend then
        if env.depositWait then
          match formatUnits amount LINK.decimals with
          | .ok s =>
            ([sub1, .txWait .approveForSupply, sub2, .txWait .depositStep,
              .logSupplied ("Successfully supplied " ++ s ++ " LINK to Aave.")],
              .ok ())
          | .error _ =>
            ([sub1, .txWait .approveForSupply, sub2, .txWait .depositStep],
              .error "Aave supply failed")
        else
          ([sub1, .txWait .approveForSupply, sub2, .txWait .depositStep],
            .error "Aave supply failed")
      else ([sub1, .txWait .approveForSupply, sub2], .error "Aave supply failed")
    else ([sub1, .txWait .approveForSupply], .error "Aave supply failed")
  else ([sub1], .error "Aave supply failed")

/-- Outcome of one `main(swapAmount)` run: the event trace, the state of
the promise returned by `main` (rejected only by the uncaught
`parseUnits` on line 162), and the message printed by the catch-all
`console.error` in `main`. -/
structure RunResult where
  trace : List Event
  promise : Except String Unit
  loggedError : Option String

namespace Script

/-- Part F of src/index.js.  The sequencer: parse the amount (outside the
try block), then approve, resolve the pool, build swap parameters, swap,
and supply `amountOut := params.amountIn` to Aave; the catch block logs
the first error and returns normally. -/
def main (swapAmount : String) (env : Env) : RunResult :=
  match parseUnits swapAmount USDC.decimals with
  | .error e => ⟨[], .error e, none⟩
  | .ok amountIn =>
    match approveToken USDC.address swapAmount env with
    | (t1, .error e) => ⟨t1, .ok (), some e⟩
    | (t1, .ok _) =>
      match getPoolInfo USDC LINK env with
      | (t2, .error e) => ⟨t1 ++ t2, .ok (), some e⟩
      | (t2, .ok pool) =>
        match prepareSwapParams pool env.signerAddress amountIn env with
        | (t3, params) =>
          match executeSwap params env with
          | (t4, .error e) => ⟨t1 ++ t2 ++ t3 ++ t4, .ok (), some e⟩
          | (t4, .ok _) =>
            let amountOut := params.amountIn
            match supplyToAave LINK.address amountOut env with
            | (t5, .error e) => ⟨t1 ++ t2 ++ t3 ++ t4 ++ t5, .ok (), some e⟩
            | (t5, .ok _) => ⟨t1 ++ t2 ++ t3 ++ t4 ++ t5, .ok (), none⟩

end Script

-- ## Trace projections

/-- Submission / confirmation-wait skeleton of a trace: `(s, false)` is
a submission of step `s`, `(s, true)` an awaited confirmation. -/
def subWaitSeq (t : List Event) : List (Step × Bool) :=
  t.filterMap fun e =>
    match e with
    | .submit s _ => some (s, false)
    | .txWait s => some (s, true)
    | _ => none

/-- The transaction payloads submitted by a run, in order. -/
def submitKinds (t : List Event) : List TxKind :=
  t.filterMap fun e =>
    match e with
    | .submit _ k => some k
    | _ => none

def isSwapSubmit : Event → Bool
  | .submit .swapExec _ => true
  | _ => false

def isSupplySubmit : Event → Bool
  | .submit .approveForSupply _ => true
  | .submit .depositStep _ => true
  | _ => false

/-- `a` is what the run has done so far of the fixed linear schedule
`b`. -/
def initialSegment (a b : List (Step × Bool)) : Prop :=
  b.take a.length = a

/-- The claimed schedule: every submission awaited before the next. -/
def claimedSeq : List (Step × Bool) :=
  [(.approveForSwap, false), (.approveForSwap, true),
   (.swapExec, false), (.swapExec, true),
   (.approveForSupply, false), (.approveForSupply, true),
   (.depositStep, false), (.depositStep, true)]

/-- The schedule the code actually follows: the swap submission is never
awaited for confirmation. -/
def actualSeq : List (Step × Bool) :=
  [(.approveForSwap, false), (.approveForSwap, true),
   (.swapExec, false),
   (.approveForSupply, false), (.approveForSupply, true),
   (.depositStep, false), (.depositStep, true)]

/-- Does every submission with a following submission get a confirmation
wait of its own step before that following submission is issued? -/
def confirmedBeforeNext : List (Step × Bool) → Bool
  | [] => true
  | (s, false) :: rest =>
    (if rest.any (fun q => q.2 == false)
      then (rest.takeWhile (fun q => q.2 == true)).contains (s, true)
      else true)
    && confirmedBeforeNext rest
  | (_, true) :: rest => confirmedBeforeNext rest

/-- An environment in which every submission resolves and every awaited
confirmation succeeds. -/
def happyEnv : Env :=
  { signerAddress := "0xF39Fd6e51aad88F6F4ce6aB8827279cffFb92266",
    approve1Send := true, approve1Wait := true,
    poolAddress := some "0xAbCdEf0123456789AbCdEf0123456789AbCdEf01",
    token0 := "0x779877A7B0D9E8603169DdbD7836e478b4624789",
    token1 := "0x1c7D4B196Cb0C7B01d743Fbc6116a902379C7238",
    fee := 3000,
    swapSend := true, swapErrorMsg := "",
    approve2Send := true, approve2Wait := true,
    depositSend := true, depositWait := true }

-- ## Explicit description of every possible run

/-- First approval submission, as it appears in the trace. -/
def approveSwapSubmit (v : Int) : Event :=
  .submit .approveForSwap (.approval USDC.address SWAP_ROUTER_CONTRACT_ADDRESS v)

/-- The swap parameters `prepareSwapParams` builds for amount `v`. -/
def builtParams (v : Int) (env : Env) : SwapParams :=
  { tokenIn := USDC.address, tokenOut := LINK.address, fee := env.fee,
    recipient := env.signerAddress, amountIn := v,
    amountOutMinimum := 0, sqrtPriceLimitX96 := 0 }

def swapSubmit (v : Int) (env : Env) : Event :=
  .submit .swapExec (.swapCall (builtParams v env))

def supplyApproveSubmit (v : Int) : Event :=
  .submit .approveForSupply (.approval LINK.address AAVE_LENDING_POOL_ADDRESS v)

def depositSubmit (v : Int) (env : Env) : Event :=
  .submit .depositStep (.deposit LINK.address v env.signerAddress 0)

/-- Trace of a run that got as far as submitting the swap. -/
def preSwapTrace (v : Int) (env : Env) : List Event :=
  [approveSwapSubmit v, .txWait .approveForSwap,
   .factoryGetPool USDC.address LINK.address 3000,
   .poolRead "token0", .poolRead "token1", .poolRead "fee",
   .poolRead "fee", swapSubmit v env]

/-- A JavaScript-falsy factory result: null/undefined or the empty
string. -/
def falsyPool (env : Env) : Prop :=
  env.poolAddress = none ∨ ∃ addr, env.poolAddress = some addr ∧ addr.isEmpty = true

/-- Exhaustive case analysis of `main`: every run is one of twelve
outcomes, each with its explicit trace, promise state and logged
error. -/
theorem main_cases (a : String) (env : Env) :
    (∃ e, parseUnits a USDC.decimals = Except.error e ∧
      Script.main a env = ⟨[], Except.error e, none⟩) ∨
    ∃ v, parseUnits a USDC.decimals = Except.ok v ∧ (
      (env.approve1Send = false ∧
        Script.main a env = ⟨[approveSwapSubmit v], Except.ok (),
          some "Token approval failed"⟩) ∨
      (env.approve1Send = true ∧ env.approve1Wait = false ∧
        Script.main a env = ⟨[approveSwapSubmit v, .txWait .approveForSwap],
          Except.ok (), some "Token approval failed"⟩) ∨
      (env.approve1Send = true ∧ env.approve1Wait = true ∧ falsyPool env ∧
        Script.main a env = ⟨[approveSwapSubmit v, .txWait .approveForSwap,
          .factoryGetPool USDC.address LINK.address 3000], Except.ok (),
          some "Failed to get pool address"⟩) ∨
      (env.approve1Send = true ∧ env.approve1Wait = true ∧
       (∃ addr, env.poolAddress = some addr ∧ addr.isEmpty = false) ∧ (
        (env.swapSend = false ∧
          Script.main a env = ⟨preSwapTrace v env, Except.ok (),
            some env.swapErrorMsg⟩) ∨
        (env.swapSend = true ∧ (
          (env.approve2Send = false ∧
            Script.main a env = ⟨preSwapTrace v env ++ [supplyApproveSubmit v],
              Except.ok (), some "Aave supply failed"⟩) ∨
          (env.approve2Send = true ∧ env.approve2Wait = false ∧
            Script.main a env = ⟨preSwapTrace v env ++
              [supplyApproveSubmit v, .txWait .approveForSupply],
              Except.ok (), some "Aave supply failed"⟩) ∨
          (env.approve2Send = true ∧ env.approve2Wait = true ∧
           env.depositSend = false ∧
            Script.main a env = ⟨preSwapTrace v env ++
              [supplyApproveSubmit v, .txWait .approveForSupply, depositSubmit v env],
              Except.ok (), some "Aave supply failed"⟩) ∨
          (env.approve2Send = true ∧ env.approve2Wait = true ∧
           env.depositSend = true ∧ env.depositWait = false ∧
            Script.main a env = ⟨preSwapTrace v env ++
              [supplyApproveSubmit v, .txWait .approveForSupply, depositSubmit v env,
               .txWait .depositStep], Except.ok (), some "Aave supply failed"⟩) ∨
          (env.approve2Send = true ∧ env.approve2Wait = true ∧
           env.depositSend = true ∧ env.depositWait = true ∧ (
            (∃ e2, formatUnits v LINK.decimals = Except.error e2 ∧
              Script.main a env = ⟨preSwapTrace v env ++
                [supplyApproveSubmit v, .txWait .approveForSupply, depositSubmit v env,
                 .txWait .depositStep], Except.ok (), some "Aave supply failed"⟩) ∨
            (∃ s, formatUnits v LINK.decimals = Except.ok s ∧
              Script.main a env = ⟨preSwapTrace v env ++
                [supplyApproveSubmit v, .txWait .approveForSupply, depositSubmit v env,
                 .txWait .depositStep,
                 .logSupplied ("Successfully supplied " ++ s ++ " LINK to Aave.")],
                Except.ok (), none⟩)))))))) := by
  obtain ⟨sa, a1s, a1w, pa, tk0, tk1, fev, sws, swm, a2s, a2w, ds, dw⟩ := env
  cases hp : parseUnits a USDC.decimals with
  | error e =>
    left
    exact ⟨e, rfl, by simp [Script.main, hp]⟩
  | ok v =>
    right
    refine ⟨v, rfl, ?_⟩
    cases a1s with
    | false =>
      left
      exact ⟨rfl, by simp [Script.main, approveToken, hp, approveSwapSubmit]⟩
    | true =>
      right
      cases a1w with
      | false =>
        left
        exact ⟨rfl, rfl, by simp [Script.main, approveToken, hp, approveSwapSubmit]⟩
      | true =>
        right
        cases pa with
        | none =>
          left
          refine ⟨rfl, rfl, Or.inl rfl, ?_⟩
          simp [Script.main, approveToken, getPoolInfo, hp, approveSwapSubmit]
        | some addr =>
          cases haddr : addr.isEmpty with
          | true =>
            left
            refine ⟨rfl, rfl, Or.inr ⟨addr, rfl, haddr⟩, ?_⟩
            simp [Script.main, approveToken, getPoolInfo, hp, haddr, approveSwapSubmit]
          | false =>
            right
            refine ⟨rfl, rfl, ⟨addr, rfl, haddr⟩, ?_⟩
            cases sws with
            | false =>
              left
              refine ⟨rfl, ?_⟩
              simp [Script.main, approveToken, getPoolInfo, prepareSwapParams,
                executeSwap, hp, haddr, preSwapTrace, approveSwapSubmit,
                swapSubmit, builtParams]
            | true =>
              right
              refine ⟨rfl, ?_⟩
              cases a2s with
              | false =>
                left
                refine ⟨rfl, ?_⟩
                simp [Script.main, approveToken, getPoolInfo, prepareSwapParams,
                  executeSwap, supplyToAave, hp, haddr, preSwapTrace,
                  approveSwapSubmit, swapSubmit, builtParams, supplyApproveSubmit]
              | true =>
                right
                cases a2w with
                | false =>
                  left
                  refine ⟨rfl, rfl, ?_⟩
                  simp [Script.main, approveToken, getPoolInfo, prepareSwapParams,
                    executeSwap, supplyToAave, hp, haddr, preSwapTrace,
                    approveSwapSubmit, swapSubmit, builtParams, supplyApproveSubmit]
                | true =>
                  right
                  cases ds with
                  | false =>
                    left
                    refine ⟨rfl, rfl, rfl, ?_⟩
                    simp [Script.main, approveToken, getPoolInfo, prepareSwapParams,
                      executeSwap, supplyToAave, hp, haddr, preSwapTrace,
                      approveSwapSubmit, swapSubmit, builtParams,
                      supplyApproveSubmit, depositSubmit]
                  | true =>
                    right
                    cases dw with
                    | false =>
                      left
                      refine ⟨rfl, rfl, rfl, rfl, ?_⟩
                      simp [Script.main, approveToken, getPoolInfo, prepareSwapParams,
                        executeSwap, supplyToAave, hp, haddr, preSwapTrace,
                        approveSwapSubmit, swapSubmit, builtParams,
                        supplyApproveSubmit, depositSubmit]
                    | true =>
                      right
                      refine ⟨rfl, rfl, rfl, rfl, ?_⟩
                      cases hf : formatUnits v LINK.decimals with
                      | error e2 =>
                        left
                        refine ⟨e2, rfl, ?_⟩
                        simp [Script.main, approveToken, getPoolInfo, prepareSwapParams,
                          executeSwap, supplyToAave, hp, haddr, hf, preSwapTrace,
                          approveSwapSubmit, swapSubmit, builtParams,
                          supplyApproveSubmit, depositSubmit]
                      | ok s =>
                        right
                        refine ⟨s, rfl, ?_⟩
                        simp [Script.main, approveToken, getPoolInfo, prepareSwapParams,
                          executeSwap, supplyToAave, hp, haddr, hf, preSwapTrace,
                          approveSwapSubmit, swapSubmit, builtParams,
                          supplyApproveSubmit, depositSubmit]

-- Every run's submission/wait skeleton follows the fixed linear schedule
-- `actualSeq` (shared helper for the serialization and fail-fast claims).
theorem main_subWaitSeq_initialSegment (a : String) (env : Env) :
    initialSegment (subWaitSeq (Script.main a env).trace) actualSeq := by
  rcases main_cases a env with ⟨e, _, hm⟩ |
    ⟨v, _, ⟨_, hm⟩ | ⟨_, _, hm⟩ | ⟨_, _, _, hm⟩ |
      ⟨_, _, _, ⟨_, hm⟩ | ⟨_, ⟨_, hm⟩ | ⟨_, _, hm⟩ | ⟨_, _, _, hm⟩ | ⟨_, _, _, _, hm⟩ |
        ⟨_, _, _, _, ⟨e2, _, hm⟩ | ⟨s, _, hm⟩⟩⟩⟩⟩ <;>
    rw [hm] <;>
    simp [subWaitSeq, initialSegment, actualSeq, preSwapTrace, approveSwapSubmit,
      swapSubmit, supplyApproveSubmit, depositSubmit]

-- ## Claim theorems

/-- Claim C1 is false on the code: in a fully successful run every step
is submitted, yet the swap submission is never followed by a swap
confirmation wait before the supply approval is submitted —
`executeSwap` awaits only `sendTransaction`, never `.wait()`. -/
theorem C1_counterexample :
    (Script.main "1" happyEnv).loggedError = none ∧
    confirmedBeforeNext (subWaitSeq (Script.main "1" happyEnv).trace) = false :=
  ⟨rfl, rfl⟩

/-- Claim C1 (amended): the first approval, the supply approval and the
deposit are each awaited for confirmation before the following
submission, but the swap submission is never awaited for confirmation:
every run's submission/wait skeleton is an initial segment of the fixed
schedule `actualSeq` (which contains no swap confirmation wait), no run
ever waits on the swap, and the fully successful run realizes the whole
schedule. -/
theorem C1_serialization_amended :
    (∀ a env, initialSegment (subWaitSeq (Script.main a env).trace) actualSeq) ∧
    (∀ a env, (Step.swapExec, true) ∉ subWaitSeq (Script.main a env).trace) ∧
    subWaitSeq (Script.main "1" happyEnv).trace = actualSeq := by
  refine ⟨main_subWaitSeq_initialSegment, ?_, rfl⟩
  intro a env hmem
  have h1 := main_subWaitSeq_initialSegment a env
  unfold initialSegment at h1
  rw [← h1] at hmem
  have h2 : (Step.swapExec, true) ∈ actualSeq :=
    (List.take_sublist _ _).mem hmem
  exact absurd h2 (by decide)

/-- The zero address returned by a factory with no deployed pool. -/
def zeroAddr : String := "0x0000000000000000000000000000000000000000"

def zeroPoolEnv : Env := { happyEnv with poolAddress := some zeroAddr }

/-- Claim C2 is false on the code: the all-zero pool address is a
non-empty string, hence truthy in JavaScript; `getPoolInfo` succeeds and
the pipeline proceeds to build and submit the swap (and everything
after it). -/
theorem C2_counterexample :
    (getPoolInfo USDC LINK zeroPoolEnv).2 =
      Except.ok ⟨zeroAddr, zeroPoolEnv.token0, zeroPoolEnv.token1, 3000⟩ ∧
    submitKinds (Script.main "1" zeroPoolEnv).trace =
      [.approval USDC.address SWAP_ROUTER_CONTRACT_ADDRESS 1000000,
       .swapCall (builtParams 1000000 zeroPoolEnv),
       .approval LINK.address AAVE_LENDING_POOL_ADDRESS 1000000,
       .deposit LINK.address 1000000 zeroPoolEnv.signerAddress 0] :=
  ⟨rfl, rfl⟩

/-- Claim C2 (amended): pool resolution fails with the pool-not-found
error exactly for a JavaScript-falsy factory result (null/undefined or
the empty string), and in that case the pipeline never submits a swap;
the all-zero hex address is truthy and is not caught (see the
counterexample). -/
theorem C2_pool_not_found_amended (a : String) (env : Env) (h : falsyPool env) :
    (getPoolInfo USDC LINK env).2 = Except.error "Failed to get pool address" ∧
    ∀ e ∈ (Script.main a env).trace, isSwapSubmit e = false := by
  constructor
  · rcases h with hnone | ⟨addr, hsome, hempty⟩
    · simp [getPoolInfo, hnone]
    · simp [getPoolInfo, hsome, hempty]
  · intro e he
    rcases main_cases a env with ⟨e0, _, hm⟩ |
      ⟨v, _, ⟨_, hm⟩ | ⟨_, _, hm⟩ | ⟨_, _, _, hm⟩ |
        ⟨_, _, ⟨addr, ha, hne⟩, _⟩⟩
    · rw [hm] at he; simp at he
    · rw [hm] at he
      simp only [List.mem_singleton] at he
      subst he
      rfl
    · rw [hm] at he
      simp only [List.mem_cons, List.not_mem_nil, or_false] at he
      rcases he with rfl | rfl <;> rfl
    · rw [hm] at he
      simp only [List.mem_cons, List.not_mem_nil, or_false] at he
      rcases he with rfl | rfl | rfl <;> rfl
    · exfalso
      rcases h with hnone | ⟨addr2, hsome, hempty⟩
      · rw [hnone] at ha; cases ha
      · rw [hsome] at ha
        cases ha
        rw [hempty] at hne
        cases hne

def C2_falsyEnv : Env := { happyEnv with poolAddress := none }

theorem C2_witness :
    (getPoolInfo USDC LINK C2_falsyEnv).2 = Except.error "Failed to get pool address" ∧
    ∀ e ∈ (Script.main "1" C2_falsyEnv).trace, isSwapSubmit e = false :=
  C2_pool_not_found_amended "1" C2_falsyEnv (Or.inl rfl)

/-- Claim C3: if the swap submission fails, the supply step — the second
approval and the lending-pool deposit — is never invoked: no supply
submission appears anywhere in the trace. -/
theorem C3_swap_failure_aborts_supply (a : String) (env : Env)
    (h : env.swapSend = false) :
    ∀ e ∈ (Script.main a env).trace, isSupplySubmit e = false := by
  intro e he
  rcases main_cases a env with ⟨e0, _, hm⟩ |
    ⟨v, _, ⟨_, hm⟩ | ⟨_, _, hm⟩ | ⟨_, _, _, hm⟩ |
      ⟨_, _, _, ⟨_, hm⟩ | ⟨hsw, _⟩⟩⟩
  · rw [hm] at he; simp at he
  · rw [hm] at he
    simp only [List.mem_singleton] at he
    subst he; rfl
  · rw [hm] at he
    simp only [List.mem_cons, List.not_mem_nil, or_false] at he
    rcases he with rfl | rfl <;> rfl
  · rw [hm] at he
    simp only [List.mem_cons, List.not_mem_nil, or_false] at he
    rcases he with rfl | rfl | rfl <;> rfl
  · rw [hm] at he
    simp only [preSwapTrace, List.mem_cons, List.not_mem_nil, or_false] at he
    rcases he with rfl | rfl | rfl | rfl | rfl | rfl | rfl | rfl <;> rfl
  · rw [h] at hsw; cases hsw

def swapFailEnv : Env :=
  { happyEnv with swapSend := false, swapErrorMsg := "execution reverted" }

theorem C3_witness :
    isSupplySubmit
      (Event.submit .swapExec (.swapCall (builtParams 1000000 swapFailEnv))) = false :=
  C3_swap_failure_aborts_supply "1" swapFailEnv rfl
    (Event.submit .swapExec (.swapCall (builtParams 1000000 swapFailEnv)))
    (by decide)

/-- An environment in which every external interaction succeeds. -/
def allOk (env : Env) : Prop :=
  env.approve1Send = true ∧ env.approve1Wait = true ∧
  (∃ addr, env.poolAddress = some addr ∧ addr.isEmpty = false) ∧
  env.swapSend = true ∧ env.approve2Send = true ∧ env.approve2Wait = true ∧
  env.depositSend = true ∧ env.depositWait = true

/-- Claim C4: for the end-to-end run with input amount "1" on the
6-decimal input token, the base-unit amount is 1000000 and the pipeline
issues exactly two approvals (first with spender the swap router, second
with spender the lending pool), one swap and one deposit, in pipeline
order. -/
theorem C4_end_to_end_counts (env : Env) (h : allOk env) :
    parseUnits "1" USDC.decimals = Except.ok 1000000 ∧
    submitKinds (Script.main "1" env).trace =
      [.approval USDC.address SWAP_ROUTER_CONTRACT_ADDRESS 1000000,
       .swapCall (builtParams 1000000 env),
       .approval LINK.address AAVE_LENDING_POOL_ADDRESS 1000000,
       .deposit LINK.address 1000000 env.signerAddress 0] := by
  obtain ⟨h1, h2, ⟨addr, hp3, hp4⟩, h4, h5, h6, h7, h8⟩ := h
  refine ⟨rfl, ?_⟩
  rcases main_cases "1" env with ⟨e0, hpe, _⟩ | ⟨v, hpv, hc⟩
  · rw [show parseUnits "1" USDC.decimals = Except.ok 1000000 from rfl] at hpe
    cases hpe
  · have hv : v = 1000000 := by
      rw [show parseUnits "1" USDC.decimals = Except.ok 1000000 from rfl] at hpv
      exact (Except.ok.inj hpv).symm
    subst hv
    rcases hc with ⟨ha, _⟩ | ⟨_, ha, _⟩ | ⟨_, _, hfal, _⟩ |
      ⟨_, _, _, ⟨ha, _⟩ | ⟨_, ⟨ha, _⟩ | ⟨_, ha, _⟩ | ⟨_, _, ha, _⟩ | ⟨_, _, _, ha, _⟩ |
        ⟨_, _, _, _, ⟨e2, hf, _⟩ | ⟨s, hf, hm⟩⟩⟩⟩
    · rw [h1] at ha; cases ha
    · rw [h2] at ha; cases ha
    · rcases hfal with hnone | ⟨addr2, hsome2, hemp2⟩
      · rw [hp3] at hnone; cases hnone
      · rw [hp3] at hsome2
        cases hsome2
        rw [hp4] at hemp2; cases hemp2
    · rw [h4] at ha; cases ha
    · rw [h5] at ha; cases ha
    · rw [h6] at ha; cases ha
    · rw [h7] at ha; cases ha
    · rw [h8] at ha; cases ha
    · rw [show formatUnits 1000000 LINK.decimals
        = Except.ok "0.000000000001" from rfl] at hf
      cases hf
    · rw [hm]
      simp [submitKinds, preSwapTrace, approveSwapSubmit, swapSubmit,
        supplyApproveSubmit, depositSubmit]

theorem C4_witness :
    parseUnits "1" USDC.decimals = Except.ok 1000000 ∧
    submitKinds (Script.main "1" happyEnv).trace =
      [.approval USDC.address SWAP_ROUTER_CONTRACT_ADDRESS 1000000,
       .swapCall (builtParams 1000000 happyEnv),
       .approval LINK.address AAVE_LENDING_POOL_ADDRESS 1000000,
       .deposit LINK.address 1000000 happyEnv.signerAddress 0] :=
  C4_end_to_end_counts happyEnv
    ⟨rfl, rfl, ⟨"0xAbCdEf0123456789AbCdEf0123456789AbCdEf01", rfl, rfl⟩,
     rfl, rfl, rfl, rfl, rfl⟩

/-- Claim C5: whenever the pipeline reaches the deposit, the amount
deposited equals the swap parameters' `amountIn` — the fixed 1:1
assignment `amountOut := params.amountIn` — and that single value is
the parsed caller input. -/
theorem C5_amount_propagation (a : String) (env : Env) (asset : String)
    (amt : Int) (who : String) (r : Nat)
    (h : Event.submit .depositStep (.deposit asset amt who r)
      ∈ (Script.main a env).trace) :
    (∃ p : SwapParams,
      Event.submit .swapExec (.swapCall p) ∈ (Script.main a env).trace ∧
      p.amountIn = amt) ∧
    parseUnits a USDC.decimals = Except.ok amt ∧ asset = LINK.address := by
  rcases main_cases a env with ⟨e0, _, hm⟩ | ⟨v, hp, hc⟩
  · rw [hm] at h; simp at h
  · rcases hc with ⟨_, hm⟩ | ⟨_, _, hm⟩ | ⟨_, _, _, hm⟩ |
      ⟨_, _, _, ⟨_, hm⟩ | ⟨_, ⟨_, hm⟩ | ⟨_, _, hm⟩ | ⟨_, _, _, hm⟩ | ⟨_, _, _, _, hm⟩ |
        ⟨_, _, _, _, ⟨e2, _, hm⟩ | ⟨s, _, hm⟩⟩⟩⟩
    · rw [hm] at h
      simp [approveSwapSubmit] at h
    · rw [hm] at h
      simp [approveSwapSubmit] at h
    · rw [hm] at h
      simp [approveSwapSubmit] at h
    · rw [hm] at h
      simp [preSwapTrace, approveSwapSubmit, swapSubmit] at h
    · rw [hm] at h
      simp [preSwapTrace, approveSwapSubmit, swapSubmit, supplyApproveSubmit] at h
    · rw [hm] at h
      simp [preSwapTrace, approveSwapSubmit, swapSubmit, supplyApproveSubmit] at h
    · rw [hm] at h
      simp [preSwapTrace, approveSwapSubmit, swapSubmit, supplyApproveSubmit,
        depositSubmit] at h
      obtain ⟨h1, h2, h3, h4⟩ := h
      subst h1; subst h2
      refine ⟨⟨builtParams amt env, ?_, rfl⟩, hp, rfl⟩
      rw [hm]
      simp [preSwapTrace, swapSubmit]
    · rw [hm] at h
      simp [preSwapTrace, approveSwapSubmit, swapSubmit, supplyApproveSubmit,
        depositSubmit] at h
      obtain ⟨h1, h2, h3, h4⟩ := h
      subst h1; subst h2
      refine ⟨⟨builtParams amt env, ?_, rfl⟩, hp, rfl⟩
      rw [hm]
      simp [preSwapTrace, swapSubmit]
    · rw [hm] at h
      simp [preSwapTrace, approveSwapSubmit, swapSubmit, supplyApproveSubmit,
        depositSubmit] at h
      obtain ⟨h1, h2, h3, h4⟩ := h
      subst h1; subst h2
      refine ⟨⟨builtParams amt env, ?_, rfl⟩, hp, rfl⟩
      rw [hm]
      simp [preSwapTrace, swapSubmit]
    · rw [hm] at h
      simp [preSwapTrace, approveSwapSubmit, swapSubmit, supplyApproveSubmit,
        depositSubmit] at h
      obtain ⟨h1, h2, h3, h4⟩ := h
      subst h1; subst h2
      refine ⟨⟨builtParams amt env, ?_, rfl⟩, hp, rfl⟩
      rw [hm]
      simp [preSwapTrace, swapSubmit]

theorem C5_witness :
    (∃ p : SwapParams,
      Event.submit .swapExec (.swapCall p) ∈ (Script.main "1" happyEnv).trace ∧
      p.amountIn = 1000000) ∧
    parseUnits "1" USDC.decimals = Except.ok 1000000 ∧
    LINK.address = LINK.address :=
  C5_amount_propagation "1" happyEnv LINK.address 1000000
    happyEnv.signerAddress 0 (by decide)

def approveFailEnv : Env := { happyEnv with approve1Send := false }

/-- Claim C6 is false on the code: here is a run in which a step fails
(the error is logged) and yet the promise returned by `main` resolves
normally — the catch block swallows the error, so nothing is surfaced
to the Sequencer's caller. -/
theorem C6_counterexample :
    (Script.main "1" approveFailEnv).loggedError = some "Token approval failed" ∧
    (Script.main "1" approveFailEnv).promise = Except.ok () :=
  ⟨rfl, rfl⟩

/-- Claim C6 (amended): the pipeline performs no retries (each step is
submitted at most once) and no compensation (the submission/wait
skeleton is always an initial segment of the single linear schedule);
but `main` catches every step error: whenever an error is logged the
promise still resolves normally, the logged message identifies the step
for an approval failure ("Token approval failed"), while a swap failure
is logged as the raw provider error with no step identification. -/
theorem C6_fail_fast_amended :
    (∀ a env, initialSegment (subWaitSeq (Script.main a env).trace) actualSeq) ∧
    (∀ a env s, ((subWaitSeq (Script.main a env).trace).count (s, false)) ≤ 1) ∧
    (∀ a env e, (Script.main a env).loggedError = some e →
      (Script.main a env).promise = Except.ok ()) ∧
    (∀ a env v, parseUnits a USDC.decimals = Except.ok v →
      env.approve1Send = false →
      (Script.main a env).loggedError = some "Token approval failed") ∧
    (∀ a env v, parseUnits a USDC.decimals = Except.ok v →
      env.approve1Send = true → env.approve1Wait = true →
      (∃ addr, env.poolAddress = some addr ∧ addr.isEmpty = false) →
      env.swapSend = false →
      (Script.main a env).loggedError = some env.swapErrorMsg) := by
  refine ⟨main_subWaitSeq_initialSegment, ?_, ?_, ?_, ?_⟩
  · intro a env s
    have h1 := main_subWaitSeq_initialSegment a env
    unfold initialSegment at h1
    rw [← h1]
    exact le_trans (List.Sublist.count_le (List.take_sublist _ _) _)
      (by cases s <;> decide)
  · intro a env e hlog
    rcases main_cases a env with ⟨e0, _, hm⟩ |
      ⟨v, _, ⟨_, hm⟩ | ⟨_, _, hm⟩ | ⟨_, _, _, hm⟩ |
        ⟨_, _, _, ⟨_, hm⟩ | ⟨_, ⟨_, hm⟩ | ⟨_, _, hm⟩ | ⟨_, _, _, hm⟩ | ⟨_, _, _, _, hm⟩ |
          ⟨_, _, _, _, ⟨e2, _, hm⟩ | ⟨s, _, hm⟩⟩⟩⟩⟩
    · rw [hm] at hlog
      exact absurd hlog (by simp)
    all_goals rw [hm]
  · intro a env v hp ha
    rcases main_cases a env with ⟨e0, hpe, hm⟩ | ⟨v2, hpv, hc⟩
    · rw [hp] at hpe; cases hpe
    · rcases hc with ⟨_, hm⟩ | ⟨hT, _, hm⟩ | ⟨hT, _, _, hm⟩ |
        ⟨hT, _, _, _⟩
      · rw [hm]
      · rw [ha] at hT; cases hT
      · rw [ha] at hT; cases hT
      · rw [ha] at hT; cases hT
  · intro a env v hp h1 h2 hpool hsw
    rcases main_cases a env with ⟨e0, hpe, hm⟩ | ⟨v2, hpv, hc⟩
    · rw [hp] at hpe; cases hpe
    · rcases hc with ⟨ha, _⟩ | ⟨_, ha, _⟩ | ⟨_, _, hfal, _⟩ |
        ⟨_, _, _, ⟨_, hm⟩ | ⟨ha, _⟩⟩
      · rw [h1] at ha; cases ha
      · rw [h2] at ha; cases ha
      · rcases hpool with ⟨addr, hp3, hp4⟩
        rcases hfal with hnone | ⟨addr2, hsome2, hemp2⟩
        · rw [hp3] at hnone; cases hnone
        · rw [hp3] at hsome2
          cases hsome2
          rw [hp4] at hemp2; cases hemp2
      · rw [hm]
      · rw [hsw] at ha; cases ha

theorem C6_witness :
    (Script.main "1" approveFailEnv).promise = Except.ok () ∧
    (Script.main "1" approveFailEnv).loggedError = some "Token approval failed" ∧
    (Script.main "1" swapFailEnv).loggedError = some "execution reverted" := by
  refine ⟨?_, ?_, ?_⟩
  · exact C6_fail_fast_amended.2.2.1 "1" approveFailEnv "Token approval failed"
      (C6_fail_fast_amended.2.2.2.1 "1" approveFailEnv 1000000 rfl rfl)
  · exact C6_fail_fast_amended.2.2.2.1 "1" approveFailEnv 1000000 rfl rfl
  · exact C6_fail_fast_amended.2.2.2.2 "1" swapFailEnv 1000000 rfl rfl rfl
      ⟨"0xAbCdEf0123456789AbCdEf0123456789AbCdEf01", rfl, rfl⟩ rfl

/-- Claim C10: the integer passed to the deposit and to the second
approval is the caller amount scaled by 10^6 (the 6-decimal USDC base
units, never re-scaled to 18 decimals), while the success log formats
that same integer with the 18 LINK decimals — so for input "1" the
deposit carries 1000000 and the log reports 0.000000000001, i.e.
1/10^12 of the input. -/
theorem C10_deposit_units_mismatch :
    (∀ a env asset amt who r,
      Event.submit .depositStep (.deposit asset amt who r)
        ∈ (Script.main a env).trace →
      parseUnits a USDC.decimals = Except.ok amt) ∧
    (∀ a env tok spender amt,
      Event.submit .approveForSupply (.approval tok spender amt)
        ∈ (Script.main a env).trace →
      parseUnits a USDC.decimals = Except.ok amt ∧
      spender = AAVE_LENDING_POOL_ADDRESS) ∧
    (∀ a env msg, Event.logSupplied msg ∈ (Script.main a env).trace →
      ∃ v s, parseUnits a USDC.decimals = Except.ok v ∧
        formatUnits v LINK.decimals = Except.ok s ∧
        msg = "Successfully supplied " ++ s ++ " LINK to Aave.") ∧
    (parseUnits "1" USDC.decimals = Except.ok 1000000 ∧
     formatUnits 1000000 LINK.decimals = Except.ok "0.000000000001" ∧
     USDC.decimals = 6 ∧ LINK.decimals = 18) := by
  refine ⟨?_, ?_, ?_, rfl, rfl, rfl, rfl⟩
  · intro a env asset amt who r h
    rcases main_cases a env with ⟨e0, _, hm⟩ | ⟨v, hp, hc⟩
    · rw [hm] at h; simp at h
    · rcases hc with ⟨_, hm⟩ | ⟨_, _, hm⟩ | ⟨_, _, _, hm⟩ |
        ⟨_, _, _, ⟨_, hm⟩ | ⟨_, ⟨_, hm⟩ | ⟨_, _, hm⟩ | ⟨_, _, _, hm⟩ | ⟨_, _, _, _, hm⟩ |
          ⟨_, _, _, _, ⟨e2, _, hm⟩ | ⟨s, _, hm⟩⟩⟩⟩ <;> rw [hm] at h
      · simp [approveSwapSubmit] at h
      · simp [approveSwapSubmit] at h
      · simp [approveSwapSubmit] at h
      · simp [preSwapTrace, approveSwapSubmit, swapSubmit] at h
      · simp [preSwapTrace, approveSwapSubmit, swapSubmit, supplyApproveSubmit] at h
      · simp [preSwapTrace, approveSwapSubmit, swapSubmit, supplyApproveSubmit] at h
      all_goals
        simp [preSwapTrace, approveSwapSubmit, swapSubmit, supplyApproveSubmit,
          depositSubmit] at h
        obtain ⟨h1, h2, h3, h4⟩ := h
        subst h2
        exact hp
  · intro a env tok spender amt h
    rcases main_cases a env with ⟨e0, _, hm⟩ | ⟨v, hp, hc⟩
    · rw [hm] at h; simp at h
    · rcases hc with ⟨_, hm⟩ | ⟨_, _, hm⟩ | ⟨_, _, _, hm⟩ |
        ⟨_, _, _, ⟨_, hm⟩ | ⟨_, ⟨_, hm⟩ | ⟨_, _, hm⟩ | ⟨_, _, _, hm⟩ | ⟨_, _, _, _, hm⟩ |
          ⟨_, _, _, _, ⟨e2, _, hm⟩ | ⟨s, _, hm⟩⟩⟩⟩ <;> rw [hm] at h
      · simp [approveSwapSubmit] at h
      · simp [approveSwapSubmit] at h
      · simp [approveSwapSubmit] at h
      · simp [preSwapTrace, approveSwapSubmit, swapSubmit] at h
      all_goals
        simp [preSwapTrace, approveSwapSubmit, swapSubmit, supplyApproveSubmit,
          depositSubmit] at h
        obtain ⟨h1, h2, h3⟩ := h
        subst h3
        exact ⟨hp, h2⟩
  · intro a env msg h
    rcases main_cases a env with ⟨e0, _, hm⟩ | ⟨v, hp, hc⟩
    · rw [hm] at h; simp at h
    · rcases hc with ⟨_, hm⟩ | ⟨_, _, hm⟩ | ⟨_, _, _, hm⟩ |
        ⟨_, _, _, ⟨_, hm⟩ | ⟨_, ⟨_, hm⟩ | ⟨_, _, hm⟩ | ⟨_, _, _, hm⟩ | ⟨_, _, _, _, hm⟩ |
          ⟨_, _, _, _, ⟨e2, _, hm⟩ | ⟨s, hf, hm⟩⟩⟩⟩ <;> rw [hm] at h
      · simp [approveSwapSubmit] at h
      · simp [approveSwapSubmit] at h
      · simp [approveSwapSubmit] at h
      · simp [preSwapTrace, approveSwapSubmit, swapSubmit] at h
      · simp [preSwapTrace, approveSwapSubmit, swapSubmit, supplyApproveSubmit] at h
      · simp [preSwapTrace, approveSwapSubmit, swapSubmit, supplyApproveSubmit] at h
      · simp [preSwapTrace, approveSwapSubmit, swapSubmit, supplyApproveSubmit,
          depositSubmit] at h
      · simp [preSwapTrace, approveSwapSubmit, swapSubmit, supplyApproveSubmit,
          depositSubmit] at h
      · simp [preSwapTrace, approveSwapSubmit, swapSubmit, supplyApproveSubmit,
          depositSubmit] at h
      · simp [preSwapTrace, approveSwapSubmit, swapSubmit, supplyApproveSubmit,
          depositSubmit] at h
        subst h
        exact ⟨v, s, hp, hf, rfl⟩

theorem C10_witness :
    parseUnits "1" USDC.decimals = Except.ok 1000000 ∧
    (∃ v s, parseUnits "1" USDC.decimals = Except.ok v ∧
      formatUnits v LINK.decimals = Except.ok s ∧
      "Successfully supplied 0.000000000001 LINK to Aave."
        = "Successfully supplied " ++ s ++ " LINK to Aave.") := by
  refine ⟨?_, ?_⟩
  · exact C10_deposit_units_mismatch.1 "1" happyEnv LINK.address 1000000
      happyEnv.signerAddress 0 (by decide)
  · exact C10_deposit_units_mismatch.2.2.1 "1" happyEnv
      "Successfully supplied 0.000000000001 LINK to Aave." (by decide)

/-- Claim C7: for every resolved pool — whatever its internal
token0/token1 ordering — `prepareSwapParams` sets `tokenIn` to the
input token's (USDC) address and `tokenOut` to LINK's address, with
`amountOutMinimum = 0` (the spec's minimumAmountOut) and
`sqrtPriceLimitX96 = 0` (the spec's priceLimit). -/
theorem C7_params_ordering_insensitive (pool : PoolInfo) (sa : String)
    (amountIn : Int) (env : Env) :
    ((prepareSwapParams pool sa amountIn env).2).tokenIn = USDC.address ∧
    ((prepareSwapParams pool sa amountIn env).2).tokenOut = LINK.address ∧
    ((prepareSwapParams pool sa amountIn env).2).amountOutMinimum = 0 ∧
    ((prepareSwapParams pool sa amountIn env).2).sqrtPriceLimitX96 = 0 :=
  ⟨rfl, rfl, rfl, rfl⟩

-- ## Parsing canonical decimals

theorem mem_takeWhile {p : Char → Bool} : ∀ (l : List Char) (c : Char),
    c ∈ l.takeWhile p → p c = true := by
  intro l
  induction l with
  | nil => intro c h; simp at h
  | cons d t ih =>
    intro c h
    by_cases hd : p d
    · rw [List.takeWhile_cons_of_pos hd] at h
      rcases List.mem_cons.mp h with rfl | h2
      · exact hd
      · exact ih c h2
    · rw [List.takeWhile_cons_of_neg (by simpa using hd)] at h
      simp at h

theorem matchDecimal_mkDecimal (neg : Bool) (w : Nat) (f : List Char)
    (hf : f.all isDigitChar = true) :
    matchDecimal (mkDecimal neg w f).data = some (neg, natToDigits w, f) := by
  have hwall := natToDigits_all_digits w
  have hwne := natToDigits_ne_nil w
  have hwemp : (natToDigits w).isEmpty = false := by
    cases h : natToDigits w with
    | nil => exact absurd h hwne
    | cons c cs => rfl
  have hdata : (mkDecimal neg w f).data =
      (if neg then ['-'] else []) ++
        (natToDigits w ++ (if f.isEmpty then [] else '.' :: f)) := by
    simp [mkDecimal, List.append_assoc]
  have hsign : splitSign ((if neg then ['-'] else []) ++
      (natToDigits w ++ (if f.isEmpty then [] else '.' :: f))) =
      (neg, natToDigits w ++ (if f.isEmpty then [] else '.' :: f)) := by
    cases neg with
    | true => simp [splitSign]
    | false =>
      obtain ⟨c, cs, hw⟩ := List.exists_cons_of_ne_nil hwne
      have hc : isDigitChar c = true := by
        rw [hw] at hwall
        simp only [List.all_cons, Bool.and_eq_true] at hwall
        exact hwall.1
      simp only [Bool.false_eq_true, if_false, List.nil_append]
      rw [hw, List.cons_append]
      simp [splitSign, dash_not_digit hc]
  rw [matchDecimal, hdata, hsign]
  cases f with
  | nil =>
    have htail : (if ([] : List Char).isEmpty = true then ([] : List Char)
        else '.' :: []) = [] := rfl
    rw [htail, List.append_nil]
    rw [takeWhile_all_eq _ hwall, dropWhile_all_eq _ hwall]
    simp [hwemp]
  | cons a b =>
    have htail : (if (a :: b).isEmpty = true then ([] : List Char)
        else '.' :: a :: b) = '.' :: a :: b := rfl
    rw [htail]
    rw [takeWhile_append_all _ _ hwall, dropWhile_append_all _ _ hwall,
      List.takeWhile_cons_of_neg (by decide),
      List.dropWhile_cons_of_neg (by decide)]
    simp [hf, hwemp]

theorem matchDecimal_chars : ∀ (l : List Char) (neg : Bool) (w f : List Char),
    matchDecimal l = some (neg, w, f) →
    ∀ c ∈ l, isDigitChar c = true ∨ c = '.' ∨ c = '-' := by
  intro l neg w f h c hc
  have key : ∀ (rest : List Char) (neg' : Bool),
      (match rest.dropWhile isDigitChar with
        | [] => if (rest.takeWhile isDigitChar).isEmpty then none
                else some (neg', rest.takeWhile isDigitChar, [])
        | c1 :: f1 =>
          if c1 = '.' then
            if f1.all isDigitChar && !((rest.takeWhile isDigitChar).isEmpty && f1.isEmpty)
            then some (neg', rest.takeWhile isDigitChar, f1) else none
          else none) = some (neg, w, f) →
      ∀ d ∈ rest, isDigitChar d = true ∨ d = '.' ∨ d = '-' := by
    intro rest neg' hmatch d hd
    split at hmatch
    next hdw =>
      have hrw : rest = rest.takeWhile isDigitChar := by
        conv_lhs => rw [← List.takeWhile_append_dropWhile (p := isDigitChar) (l := rest)]
        rw [hdw, List.append_nil]
      rw [hrw] at hd
      exact Or.inl (mem_takeWhile rest d hd)
    next c1 f1 hdw =>
      split at hmatch
      next hc1 =>
        split at hmatch
        next hcond =>
          simp only [Bool.and_eq_true] at hcond
          have hrest : rest = rest.takeWhile isDigitChar ++ c1 :: f1 := by
            conv_lhs => rw [← List.takeWhile_append_dropWhile (p := isDigitChar) (l := rest)]
            rw [hdw]
          rw [hrest] at hd
          rcases List.mem_append.mp hd with hd1 | hd2
          · exact Or.inl (mem_takeWhile rest d hd1)
          · rcases List.mem_cons.mp hd2 with rfl | hd3
            · exact Or.inr (Or.inl hc1)
            · exact Or.inl (List.all_eq_true.mp hcond.1 d hd3)
        next => cases hmatch
      next => cases hmatch
  rw [matchDecimal] at h
  cases l with
  | nil =>
    simp [splitSign] at h
  | cons c0 t =>
    by_cases hc0 : c0 = '-'
    · subst hc0
      have hs : splitSign ('-' :: t) = (true, t) := by simp [splitSign]
      rw [hs] at h
      rcases List.mem_cons.mp hc with rfl | hct
      · exact Or.inr (Or.inr rfl)
      · exact key t true h c hct
    · have hs : splitSign (c0 :: t) = (false, c0 :: t) := by simp [splitSign, hc0]
      rw [hs] at h
      exact key (c0 :: t) false h c hc

theorem parseUnits_mkDecimal (neg : Bool) (w : Nat) (f : List Char) (p : Nat)
    (hp : p ≤ 80) (hf : f.all isDigitChar = true) (hfl : f.length ≤ p)
    (hbound : w * 10 ^ p + digitsToNat f * 10 ^ (p - f.length) < 2 ^ 511) :
    parseUnits (mkDecimal neg w f) p = Except.ok
      (if neg then
        -(((w * 10 ^ p + digitsToNat f * 10 ^ (p - f.length) : Nat) : Int))
      else ((w * 10 ^ p + digitsToNat f * 10 ^ (p - f.length) : Nat) : Int)) := by
  have hlen : (f ++ List.replicate (p - f.length) '0').length = p := by
    simp only [List.length_append, List.length_replicate]
    omega
  have hmag : digitsToNat (natToDigits w ++ (f ++ List.replicate (p - f.length) '0'))
      = w * 10 ^ p + digitsToNat f * 10 ^ (p - f.length) := by
    rw [digitsToNat_append, hlen, digitsToNat_natToDigits, digitsToNat_append_zeros]
  rw [parseUnits, if_neg (show ¬ 80 < p by omega),
    matchDecimal_mkDecimal neg w f hf]
  dsimp only
  rw [if_neg (show ¬ p < f.length by omega)]
  simp only [hmag]
  have hb : (w : Int) * 10 ^ p + (digitsToNat f : Int) * 10 ^ (p - f.length)
      < 2 ^ 511 := by exact_mod_cast hbound
  have h0 : (0 : Int) ≤
      (w : Int) * 10 ^ p + (digitsToNat f : Int) * 10 ^ (p - f.length) := by
    positivity
  have hA : (0 : Int) < 2 ^ 511 := by positivity
  rw [if_neg]
  rcases Bool.eq_false_or_eq_true neg with hn | hn <;> rw [hn] <;> simp <;> omega

/-- Claim C9 is false on the code: ethers `parseUnits` accepts negative
numeric input — "-1" at 6 decimals parses to the value -1000000 instead
of failing with an InvalidAmount error. -/
theorem C9_counterexample :
    parseUnits "-1" 6 = Except.ok (-1000000) ∧
    ∀ e, parseUnits "-1" 6 ≠ Except.error e := by
  refine ⟨rfl, ?_⟩
  intro e h
  rw [show parseUnits "-1" 6 = Except.ok (-1000000) from rfl] at h
  cases h

/-- Claim C9 (amended): `toBaseUnits` (ethers `parseUnits`) rejects
precision beyond 80 decimals, rejects input with more fractional digits
than the precision, and rejects non-numeric input (any character other
than a digit, the decimal point and the sign); but it accepts negative
numeric input, producing the negated base-unit value rather than an
error. -/
theorem C9_invalid_amount_amended :
    (∀ (s : String) (p : Nat), 80 < p → ∃ e, parseUnits s p = Except.error e) ∧
    (∀ (neg : Bool) (w : Nat) (f : List Char) (p : Nat),
      f.all isDigitChar = true → p < f.length → p ≤ 80 →
      ∃ e, parseUnits (mkDecimal neg w f) p = Except.error e) ∧
    (∀ (s : String) (p : Nat) (c : Char), p ≤ 80 → c ∈ s.data →
      isDigitChar c = false → c ≠ '.' → c ≠ '-' →
      ∃ e, parseUnits s p = Except.error e) ∧
    (∀ (w p : Nat), p ≤ 80 → w * 10 ^ p < 2 ^ 511 →
      parseUnits (mkDecimal true w []) p =
        Except.ok (-((w * 10 ^ p : Nat) : Int))) := by
  refine ⟨?_, ?_, ?_, ?_⟩
  · intro s p h
    exact ⟨"invalid decimal length", by rw [parseUnits, if_pos h]⟩
  · intro neg w f p hf hlt hp
    refine ⟨"too many decimals", ?_⟩
    rw [parseUnits, if_neg (show ¬ 80 < p by omega),
      matchDecimal_mkDecimal neg w f hf]
    dsimp only
    rw [if_pos hlt]
  · intro s p c hp hc hnd hdot hdash
    cases hres : matchDecimal s.data with
    | none =>
      exact ⟨"invalid FixedNumber string value", by
        rw [parseUnits, if_neg (show ¬ 80 < p by omega), hres]⟩
    | some trip =>
      exfalso
      obtain ⟨n2, w2, f2⟩ := trip
      rcases matchDecimal_chars s.data n2 w2 f2 hres c hc with h1 | h1 | h1
      · rw [hnd] at h1; cases h1
      · exact hdot h1
      · exact hdash h1
  · intro w p hp hb
    have := parseUnits_mkDecimal true w [] p hp (by simp) (by simp)
      (by simpa [digitsToNat] using hb)
    simpa [digitsToNat] using this

theorem C9_witness :
    (∃ e, parseUnits "1" 81 = Except.error e) ∧
    (∃ e, parseUnits (mkDecimal false 1 ['5', '0']) 1 = Except.error e) ∧
    (∃ e, parseUnits "1a" 6 = Except.error e) ∧
    parseUnits (mkDecimal true 2 []) 6 = Except.ok (-((2 * 10 ^ 6 : Nat) : Int)) := by
  refine ⟨?_, ?_, ?_, ?_⟩
  · exact C9_invalid_amount_amended.1 "1" 81 (by omega)
  · exact C9_invalid_amount_amended.2.1 false 1 ['5', '0'] 1 (by decide)
      (by decide) (by decide)
  · exact C9_invalid_amount_amended.2.2.1 "1a" 6 'a' (by omega) (by decide)
      (by decide) (by decide) (by decide)
  · exact C9_invalid_amount_amended.2.2.2 2 6 (by omega) (by norm_num)

-- ## Normalization lemmas for the round-trip claim

theorem dropWhile_idem {p : Char → Bool} (l : List Char) :
    (l.dropWhile p).dropWhile p = l.dropWhile p := by
  cases h : l.dropWhile p with
  | nil => rfl
  | cons c t =>
    have hc := dropWhile_head_false (p := p) l c t h
    rw [List.dropWhile_cons_of_neg (by simp [hc])]

theorem dropTrailingZeros_idem (f : List Char) :
    dropTrailingZeros (dropTrailingZeros f) = dropTrailingZeros f := by
  unfold dropTrailingZeros
  rw [List.reverse_reverse, dropWhile_idem]

theorem normalizeChars_no_dot {l : List Char} (h : '.' ∉ l) :
    normalizeChars l = l := by
  unfold normalizeChars
  rw [if_neg h]

theorem normalizeChars_strip_all (pre f : List Char)
    (hf : f.all (fun c => c == '0') = true) :
    normalizeChars (pre ++ '.' :: f) = pre := by
  have hdot : '.' ∈ pre ++ '.' :: f := by simp
  have hr : (pre ++ '.' :: f).reverse.dropWhile (fun c => c == '0')
      = '.' :: pre.reverse := by
    rw [show (pre ++ '.' :: f).reverse = f.reverse ++ '.' :: pre.reverse by simp,
      dropWhile_append_all _ _ (by simpa using hf),
      List.dropWhile_cons_of_neg (by decide)]
  unfold normalizeChars
  rw [if_pos hdot, hr]
  simp

theorem normalizeChars_nonzero (pre f : List Char)
    (hall : f.all isDigitChar = true) (hne : digitsToNat f ≠ 0) :
    normalizeChars (pre ++ '.' :: f) = pre ++ '.' :: dropTrailingZeros f := by
  have hdot : '.' ∈ pre ++ '.' :: f := by simp
  have hd0 : dropTrailingZeros f ≠ [] := dropTrailingZeros_ne_nil hne
  have hdne : f.reverse.dropWhile (fun c => c == '0') ≠ [] := by
    intro hcon
    apply hd0
    unfold dropTrailingZeros
    rw [hcon]
    rfl
  obtain ⟨c, t, hct⟩ := List.exists_cons_of_ne_nil hdne
  have hcdig : isDigitChar c = true := by
    have hmem : c ∈ f.reverse.dropWhile (fun c => c == '0') := by
      rw [hct]; simp
    have h2 : c ∈ f.reverse := mem_of_mem_dropWhile _ _ hmem
    exact List.all_eq_true.mp hall c (by simpa using h2)
  have hcdot : c ≠ '.' := dot_not_digit hcdig
  have hdtz : dropTrailingZeros f = (c :: t).reverse := by
    unfold dropTrailingZeros
    rw [hct]
  have hr : (pre ++ '.' :: f).reverse.dropWhile (fun c => c == '0')
      = c :: (t ++ '.' :: pre.reverse) := by
    rw [show (pre ++ '.' :: f).reverse = f.reverse ++ '.' :: pre.reverse by simp,
      dropWhile_append_ne_nil _ _ hdne, hct]
    simp
  unfold normalizeChars
  rw [if_pos hdot, hr]
  rw [hdtz]
  simp [hcdot]

theorem normalizeChars_trimmed (pre f : List Char)
    (hall : f.all isDigitChar = true) (hne : digitsToNat f ≠ 0) :
    normalizeChars (pre ++ '.' :: dropTrailingZeros f)
      = pre ++ '.' :: dropTrailingZeros f := by
  have h1 : (dropTrailingZeros f).all isDigitChar = true := by
    rw [List.all_eq_true]
    intro c hc
    have h2 : c ∈ f.reverse.dropWhile (fun x => x == '0') := by
      unfold dropTrailingZeros at hc
      exact List.mem_reverse.mp hc
    have h3 : c ∈ f := by
      have := mem_of_mem_dropWhile _ _ h2
      simpa using this
    exact List.all_eq_true.mp hall c h3
  have h2 : digitsToNat (dropTrailingZeros f) ≠ 0 := by
    intro h0
    have hrep := eq_replicate_of_digitsToNat_zero _ h1 h0
    have hdne : f.reverse.dropWhile (fun c => c == '0') ≠ [] := by
      intro hcon
      apply dropTrailingZeros_ne_nil hne
      unfold dropTrailingZeros
      rw [hcon]
      rfl
    obtain ⟨c, t, hct⟩ := List.exists_cons_of_ne_nil hdne
    have hcfalse := dropWhile_head_false (p := fun c => c == '0') f.reverse c t hct
    have hcmem : c ∈ dropTrailingZeros f := by
      unfold dropTrailingZeros
      rw [hct]
      simp
    rw [hrep] at hcmem
    have : c = '0' := List.eq_of_mem_replicate hcmem
    rw [this] at hcfalse
    simp at hcfalse
  have h3 := normalizeChars_nonzero pre (dropTrailingZeros f) h1 h2
  rw [h3, dropTrailingZeros_idem]

theorem no_overflow_of_lt {mag : Nat} (h : mag < 2 ^ 511) (neg : Bool) :
    ¬((if neg then -(mag : Int) else (mag : Int)) < -(2 ^ 511 : Int) ∨
      (2 ^ 511 : Int) ≤ (if neg then -(mag : Int) else (mag : Int))) := by
  have hb : (mag : Int) < 2 ^ 511 := by exact_mod_cast h
  have h0 : (0 : Int) ≤ (mag : Int) := Int.natCast_nonneg _
  have hA : (0 : Int) < 2 ^ 511 := by positivity
  rcases Bool.eq_false_or_eq_true neg with hn | hn <;> rw [hn] <;> simp <;> omega

theorem natAbs_ite_neg (neg : Bool) (mag : Nat) :
    (if neg then -(mag : Int) else (mag : Int)).natAbs = mag := by
  rcases Bool.eq_false_or_eq_true neg with hn | hn <;> rw [hn] <;> simp

theorem signList_ite_neg (neg : Bool) (mag : Nat) (hpos : neg = true → 0 < mag) :
    (if (if neg then -(mag : Int) else (mag : Int)) < 0 then ['-']
      else ([] : List Char)) = (if neg then ['-'] else []) := by
  rcases Bool.eq_false_or_eq_true neg with hn | hn <;> rw [hn]
  · have hlt : -((mag : Nat) : Int) < 0 := by
      have h1 : (0 : Int) < (mag : Nat) := by exact_mod_cast hpos hn
      omega
    simp [hlt]
  · simp

theorem normalizeAmount_mk (l : List Char) :
    normalizeAmount (String.mk l) = String.mk (normalizeChars l) := rfl

theorem normalizeAmount_mkDecimal (neg : Bool) (w : Nat) (f : List Char) :
    normalizeAmount (mkDecimal neg w f)
      = String.mk (normalizeChars ((if neg then ['-'] else []) ++ natToDigits w ++
          (if f.isEmpty then [] else '.' :: f))) := rfl

theorem not_dot_sign_digits (neg : Bool) (w : Nat) :
    '.' ∉ (if neg then ['-'] else []) ++ natToDigits w := by
  intro hmem
  rcases List.mem_append.mp hmem with h1 | h1
  · rcases Bool.eq_false_or_eq_true neg with hn | hn <;> rw [hn] at h1 <;> simp at h1
  · exact not_dot_mem_of_all_digits (natToDigits_all_digits w) h1

/-- Claim C8: for every canonically written decimal amount — optional
sign, whole part, at most `p` fractional digits, value inside the
512-bit FixedNumber width — and every precision `p` up to 80 (so in
particular all `p` up to the claimed 18), `toBaseUnits` (`parseUnits`)
succeeds and `toDecimalString` (`formatUnits`) of the result equals the
input up to trailing-zero normalization: the arithmetic is exact
big-integer fixed point with no rounding loss. -/
theorem C8_roundtrip (p : Nat) (neg : Bool) (w : Nat) (f : List Char)
    (hp : p ≤ 80) (hf : f.all isDigitChar = true) (hfl : f.length ≤ p)
    (hneg : neg = true → ¬(w = 0 ∧ digitsToNat f = 0))
    (hbound : w * 10 ^ p + digitsToNat f * 10 ^ (p - f.length) < 2 ^ 511) :
    ∃ v s, parseUnits (mkDecimal neg w f) p = Except.ok v ∧
      formatUnits v p = Except.ok s ∧
      normalizeAmount s = normalizeAmount (mkDecimal neg w f) := by
  have hparse := parseUnits_mkDecimal neg w f p hp hf hfl hbound
  have hFlt : digitsToNat f < 10 ^ f.length := digitsToNat_lt f hf
  have hFpow : digitsToNat f * 10 ^ (p - f.length) < 10 ^ p := by
    calc digitsToNat f * 10 ^ (p - f.length)
        < 10 ^ f.length * 10 ^ (p - f.length) :=
          mul_lt_mul_of_pos_right hFlt (Nat.pos_pow_of_pos _ (by decide))
      _ = 10 ^ p := by rw [← pow_add]; congr 1; omega
  have hmagpos : neg = true →
      0 < w * 10 ^ p + digitsToNat f * 10 ^ (p - f.length) := by
    intro hn
    by_contra h0
    push_neg at h0
    have h0' : w * 10 ^ p + digitsToNat f * 10 ^ (p - f.length) = 0 := by omega
    have hp10 : 0 < 10 ^ p := Nat.pos_pow_of_pos _ (by decide)
    have hp10b : 0 < 10 ^ (p - f.length) := Nat.pos_pow_of_pos _ (by decide)
    have hw0 : w = 0 := by
      have h1 : w * 10 ^ p = 0 := by omega
      rcases Nat.mul_eq_zero.mp h1 with h | h
      · exact h
      · omega
    have hf0 : digitsToNat f = 0 := by
      have h1 : digitsToNat f * 10 ^ (p - f.length) = 0 := by omega
      rcases Nat.mul_eq_zero.mp h1 with h | h
      · exact h
      · omega
    exact hneg hn ⟨hw0, hf0⟩
  set mag := w * 10 ^ p + digitsToNat f * 10 ^ (p - f.length) with hmagdef
  have hnoov := no_overflow_of_lt hbound neg
  have habs := natAbs_ite_neg neg mag
  have hsign := signList_ite_neg neg mag hmagpos
  refine ⟨if neg then -(mag : Int) else (mag : Int), ?_⟩
  by_cases hp0 : p = 0
  · -- precision 0: no fractional part at all
    have hfnil : f = [] := List.length_eq_zero.mp (by omega)
    have hmw : mag = w := by
      rw [hmagdef, hfnil, hp0]
      simp [digitsToNat]
    have hfmt : formatUnits (if neg then -(mag : Int) else (mag : Int)) p
        = Except.ok (String.mk ((if neg then ['-'] else []) ++ natToDigits mag)) := by
      rw [formatUnits, if_neg (by omega), if_neg hnoov]
      dsimp only
      rw [if_pos hp0, habs, hsign]
    refine ⟨_, hparse, hfmt, ?_⟩
    rw [hmw, normalizeAmount_mk, normalizeAmount_mkDecimal, hfnil]
    refine congrArg String.mk ?_
    rw [normalizeChars_no_dot (not_dot_sign_digits neg w)]
    have hnd2 : '.' ∉ (if neg then ['-'] else []) ++ natToDigits w ++
        (if ([] : List Char).isEmpty then [] else '.' :: []) := by
      simpa using not_dot_sign_digits neg w
    rw [normalizeChars_no_dot hnd2]
    simp
  · -- positive precision
    have hdiv : mag / 10 ^ p = w := by
      rw [hmagdef, Nat.add_comm,
        Nat.add_mul_div_right _ _ (Nat.pos_pow_of_pos p (by decide)),
        Nat.div_eq_of_lt hFpow]
      omega
    have hmod : mag % 10 ^ p = digitsToNat f * 10 ^ (p - f.length) := by
      rw [hmagdef, Nat.add_comm, Nat.add_mul_mod_self_right,
        Nat.mod_eq_of_lt hFpow]
    have hfmt0 : formatUnits (if neg then -(mag : Int) else (mag : Int)) p
        = Except.ok (String.mk ((if neg then ['-'] else []) ++ natToDigits w ++
            '.' :: trimFrac (List.replicate
              (p - (natToDigits (digitsToNat f * 10 ^ (p - f.length))).length) '0'
              ++ natToDigits (digitsToNat f * 10 ^ (p - f.length))))) := by
      rw [formatUnits, if_neg (by omega), if_neg hnoov]
      dsimp only
      rw [if_neg hp0, habs, hsign, hdiv, hmod]
    by_cases hF0 : digitsToNat f = 0
    · -- zero fraction value: the rendering shows ".0"
      rw [hF0, Nat.zero_mul] at hfmt0
      rw [show natToDigits 0 = ['0'] from rfl] at hfmt0
      rw [show (['0'] : List Char).length = 1 from rfl] at hfmt0
      have hrep : List.replicate (p - 1) '0' ++ ['0'] = List.replicate p '0' := by
        rw [← List.replicate_succ' ]
        congr 1
        omega
      rw [hrep] at hfmt0
      have htf : trimFrac (List.replicate p '0') = ['0'] := by
        unfold trimFrac
        rw [dropTrailingZeros_all_zero (by simp)]
      rw [htf] at hfmt0
      refine ⟨_, hparse, hfmt0, ?_⟩
      rw [normalizeAmount_mk, normalizeAmount_mkDecimal]
      refine congrArg String.mk ?_
      rw [normalizeChars_strip_all _ _ (by simp)]
      cases f with
      | nil =>
        have hnd2 : '.' ∉ (if neg then ['-'] else []) ++ natToDigits w ++
            (if ([] : List Char).isEmpty then [] else '.' :: []) := by
          simpa using not_dot_sign_digits neg w
        rw [normalizeChars_no_dot hnd2]
        simp
      | cons a b =>
        have hall0 : (a :: b).all (fun c => c == '0') = true := by
          have hrepf := eq_replicate_of_digitsToNat_zero (a :: b) hf hF0
          rw [List.all_eq_true]
          intro c hc
          rw [hrepf] at hc
          have := List.eq_of_mem_replicate hc
          simp [this]
        rw [show (if (a :: b).isEmpty = true then ([] : List Char)
          else '.' :: a :: b) = '.' :: a :: b from rfl]
        rw [normalizeChars_strip_all _ _ hall0]
    · -- nonzero fraction value
      have fne : f ≠ [] := by
        intro h
        rw [h] at hF0
        exact hF0 rfl
      have hFpos : 0 < digitsToNat f := Nat.pos_of_ne_zero hF0
      have hndF := natToDigits_mul_pow_ten hFpos (p - f.length)
      have hlenF : (natToDigits (digitsToNat f)).length ≤ f.length := by
        obtain ⟨k, hk⟩ := Nat.exists_eq_succ_of_ne_zero
          (show f.length ≠ 0 by simpa using fne)
        have hlt : digitsToNat f < 10 ^ (k + 1) := by
          have h2 := hFlt
          rwa [hk] at h2
        have h3 := natToDigits_length_le k _ hlt
        omega
      rw [hndF] at hfmt0
      rw [show (natToDigits (digitsToNat f) ++
          List.replicate (p - f.length) '0').length
        = (natToDigits (digitsToNat f)).length + (p - f.length) by simp] at hfmt0
      rw [show p - ((natToDigits (digitsToNat f)).length + (p - f.length))
        = f.length - (natToDigits (digitsToNat f)).length by omega] at hfmt0
      rw [← List.append_assoc,
        pad_natToDigits_digitsToNat f hf fne] at hfmt0
      have htf : trimFrac (f ++ List.replicate (p - f.length) '0')
          = dropTrailingZeros f := by
        unfold trimFrac
        rw [dropTrailingZeros_append_zeros]
        cases hh : dropTrailingZeros f with
        | nil => exact absurd hh (dropTrailingZeros_ne_nil hF0)
        | cons a b => rfl
      rw [htf] at hfmt0
      refine ⟨_, hparse, hfmt0, ?_⟩
      rw [normalizeAmount_mk, normalizeAmount_mkDecimal]
      refine congrArg String.mk ?_
      rw [normalizeChars_trimmed _ _ hf hF0]
      have hfne2 : (if f.isEmpty = true then ([] : List Char) else '.' :: f)
          = '.' :: f := by
        cases f with
        | nil => exact absurd rfl fne
        | cons a b => rfl
      rw [hfne2, normalizeChars_nonzero _ _ hf hF0]

theorem C8_witness :
    ∃ v s, parseUnits (mkDecimal false 1 ['5']) 6 = Except.ok v ∧
      formatUnits v 6 = Except.ok s ∧
      normalizeAmount s = normalizeAmount (mkDecimal false 1 ['5']) :=
  C8_roundtrip 6 false 1 ['5'] (by decide) (by decide) (by decide)
    (by decide) (by decide)
